import Mathlib

/-!
Shallow embedding of `pinger.py` (Simplify-CS-Internship-Pinger).

The program fetches a markdown document, extracts configured sections,
parses the first table row of each section (HTML table first, then
markdown pipe table), normalizes the three cells, diffs against a
persisted JSON snapshot, notifies on changes and rewrites the snapshot.

Python string primitives (`str.strip`, `str.split`, `str.splitlines`,
`str.lower`, the two `re.sub` calls of `strip_markdown` and the
separator regex of `parse_markdown_table`) are embedded as explicit
`List Char` / `String` functions below; each is annotated with the
Python expression it models.  All definitions use structural recursion
(scanning loops carry a fuel argument initialized to the input length;
every step consumes at least one character, so the fuel is never
exhausted) so that every definition evaluates inside the kernel.
-/

namespace Pinger

/-- Python whitespace class `\s` (ASCII part), also the class used by
`str.strip()` and `str.split()` without arguments. -/
def pyIsSpace (c : Char) : Bool :=
  c = ' ' || c = '\t' || c = '\n' || c = '\x0b' || c = '\x0c' || c = '\r'

/-- Python word-character class `\w` (ASCII part: letters, digits, underscore). -/
def isWordChar (c : Char) : Bool :=
  c.isAlphanum || c = '_'

/-- Python `s.strip()` on a character list: drop whitespace from both ends. -/
def pyStripChars (l : List Char) : List Char :=
  ((l.dropWhile pyIsSpace).reverse.dropWhile pyIsSpace).reverse

/-- Python `s.strip()` on strings. -/
def pyStrip (s : String) : String :=
  String.mk (pyStripChars s.toList)

/-- Python `s.lower()` (ASCII case folding). -/
def pyLower (s : String) : String :=
  String.mk (s.toList.map Char.toLower)

/-- Test `startsList l pre` : the list `l` begins with `pre` (Python
`"".join(l).startswith("".join(pre))`). -/
def startsList : (l pre : List Char) → Bool
  | _, [] => true
  | [], _ :: _ => false
  | a :: as, b :: bs => a = b && startsList as bs

/-- Python `s.startswith(pre)` on strings. -/
def pyStartsWith (s pre : String) : Bool :=
  startsList s.toList pre.toList

/-- Python substring test `needle in haystack` (on character lists):
true iff `needle` occurs contiguously in `haystack`; the empty needle
always occurs. -/
def subOccurs (needle : List Char) : List Char → Bool
  | [] => needle.isEmpty
  | c :: rest => startsList (c :: rest) needle || subOccurs needle rest

/-- Python `needle in haystack` on strings. -/
def pyContains (haystack needle : String) : Bool :=
  subOccurs needle.toList haystack.toList

/-- Split at every occurrence of the separator character, keeping empty
pieces, as Python `s.split(sep)` for a one-character `sep`: the empty
string yields `[[]]`, and a trailing separator yields a trailing `[]`. -/
def splitOnChar (sep : Char) (l : List Char) : List (List Char) :=
  go l []
where
  /-- Accumulates the current piece in reverse. -/
  go : List Char → List Char → List (List Char)
    | [], acc => [acc.reverse]
    | c :: cs, acc =>
      if c = sep then acc.reverse :: go cs [] else go cs (c :: acc)

/-- Python `s.splitlines()` with `\n` line terminators: empty string gives
no lines, and a trailing newline does not produce a trailing empty line. -/
def pySplitlines (s : String) : List String :=
  if s.isEmpty then []
  else
    let ps := (splitOnChar '\n' s.toList).map String.mk
    if ps.getLast? = some "" then ps.dropLast else ps

/-- Join of `"\n".join(lines)` (pinger.py line 49). -/
def joinLines : List String → String
  | [] => ""
  | [a] => a
  | a :: b :: rest => a ++ "\n" ++ joinLines (b :: rest)

/-- One attempt of the link regex `\[([^\]]+)\]\([^)]+\)` of
`strip_markdown` (pinger.py line 30) at the head of `l`: on success
returns the captured label (group 1) and the remainder after the
closing `)`.  The classes `[^\]]+` and `[^)]+` cannot cross their
delimiter, so the greedy match is the run up to the first delimiter
and must be nonempty. -/
def matchLink (l : List Char) : Option (List Char × List Char) :=
  match l with
  | '[' :: rest =>
    let label := rest.takeWhile (fun c => c != ']')
    match rest.dropWhile (fun c => c != ']') with
    | ']' :: '(' :: r2 =>
      let url := r2.takeWhile (fun c => c != ')')
      match r2.dropWhile (fun c => c != ')') with
      | ')' :: r3 =>
        if label.isEmpty || url.isEmpty then none else some (label, r3)
      | _ => none
    | _ => none
  | _ => none

/-- Fuel-indexed scan of the global substitution
`re.sub(r"\[([^\]]+)\]\([^)]+\)", r"\1", text)` of `strip_markdown`
(pinger.py line 30): left-to-right, each link replaced by its label,
scanning resumes after the match; on failure at a position the character
is kept and the scan moves one character on.  Each step consumes at
least one character, so fuel equal to the input length never runs out. -/
def replaceLinksF : Nat → List Char → List Char
  | _, [] => []
  | 0, l => l
  | fuel + 1, c :: rest =>
    match matchLink (c :: rest) with
    | some pr => pr.1 ++ replaceLinksF fuel pr.2
    | none => c :: replaceLinksF fuel rest

/-- The link substitution of `strip_markdown` (pinger.py line 30). -/
def replaceLinks (l : List Char) : List Char :=
  replaceLinksF l.length l

/-- The anchored substitution `re.sub(r"^[^\w\[]+\s*", "", text)` of
`strip_markdown` (pinger.py line 31).  `^` matches only at the start, so
at most one removal happens: the maximal leading run of characters that
are neither word characters nor `[`.  The trailing `\s*` adds nothing
because every whitespace character is itself in the class `[^\w\[]`. -/
def stripLeadingDecoration (l : List Char) : List Char :=
  l.dropWhile (fun c => !(isWordChar c || c = '['))

/-- Fuel-indexed scan of Python `text.split()` (no argument): maximal
runs of non-whitespace characters, in order; no empty words.  Each step
consumes at least one character, so fuel equal to the input length never
runs out. -/
def pyWordsF : Nat → List Char → List (List Char)
  | _, [] => []
  | 0, l => [l]
  | fuel + 1, c :: cs =>
    if pyIsSpace c then pyWordsF fuel cs
    else (c :: cs.takeWhile (fun x => !pyIsSpace x)) ::
      pyWordsF fuel (cs.dropWhile (fun x => !pyIsSpace x))

/-- Python `text.split()` without arguments. -/
def pyWords (l : List Char) : List (List Char) :=
  pyWordsF l.length l

/-- Join of `" ".join(words)` on character lists. -/
def joinWords : List (List Char) → List Char
  | [] => []
  | [w] => w
  | w :: v :: ws => w ++ ' ' :: joinWords (v :: ws)

/-- The whole collapse step `" ".join(text.split())` of `strip_markdown`
(pinger.py line 32). -/
def collapseWs (l : List Char) : List Char :=
  joinWords (pyWords l)

/-- Embedding of `strip_markdown` (pinger.py lines 29-32): replace markdown links with
their labels, strip one leading run of non-word non-`[` decoration, and
collapse whitespace runs to single spaces with trimmed ends. -/
def strip_markdown (text : String) : String :=
  String.mk (collapseWs (stripLeadingDecoration (replaceLinks text.toList)))

/-- Result row of either table parser (pinger.py lines 71-75 and 96-100):
a Python dict with exactly the keys company, role, location. -/
structure ListingRow where
  company : String
  role : String
  location : String
deriving DecidableEq, Repr

/-- Errors raised by the program: `RuntimeError("Could not find section
header: ...")` (line 42) and `RuntimeError("No tables found...")` (line 116). -/
inductive Err where
  | sectionNotFound (title : String)
  | noTablesFound
deriving DecidableEq, Repr

deriving instance DecidableEq for Except

/-- Heading test of `get_section_slice` (pinger.py line 39):
`ln.strip().startswith("##") and section_title.lower() in ln.lower()`. -/
def headingPred (title ln : String) : Bool :=
  pyStartsWith (pyStrip ln) "##" && pyContains (pyLower ln) (pyLower title)

/-- The `next_header` computation of `get_section_slice` (pinger.py
lines 44-47): the first index after `s` whose line starts exactly with
`"## "`, or the number of lines when there is none. -/
def nextHeaderIdx (lines : List String) (s : Nat) : Nat :=
  match (lines.drop (s + 1)).findIdx? (fun ln => pyStartsWith ln "## ") with
  | some j => s + 1 + j
  | none => lines.length

/-- Embedding of `get_section_slice` (pinger.py lines 34-49). -/
def get_section_slice (md title : String) : Except Err String :=
  let lines := pySplitlines md
  match lines.findIdx? (headingPred title) with
  | none => .error (.sectionNotFound title)
  | some sec_idx =>
    .ok (joinLines ((lines.take (nextHeaderIdx lines sec_idx)).drop sec_idx))

/-- Abstract first `<tr>` of the HTML model: its `<td>` cells, each held
as the string `td.get_text(" ", strip=True)` would produce. -/
structure HtmlTr where
  tds : List String
deriving DecidableEq, Repr

/-- A row container (a `<tbody>` or the `<table>` itself): `find("tr")`. -/
structure HtmlRowContainer where
  firstTr : Option HtmlTr
deriving DecidableEq, Repr

/-- Abstract `<table>` element: `find("tbody")` and the table itself as a
row container. -/
structure HtmlTable where
  tbody : Option HtmlRowContainer
  asContainer : HtmlRowContainer
deriving DecidableEq, Repr

/-- Abstract parsed HTML document: `soup.find("table")`. -/
structure HtmlDoc where
  firstTable : Option HtmlTable
deriving DecidableEq, Repr

/-- Embedding of `parse_html_table` (pinger.py lines 52-75).  BeautifulSoup is an
external library, so the call `BeautifulSoup(html_snippet, "html.parser")`
is abstracted as a parameter `p` producing the `HtmlDoc` view used by the
code: first table, optional tbody, first row, td cell texts. -/
def parse_html_table (p : String → HtmlDoc) (html_snippet : String) : Option ListingRow :=
  match (p html_snippet).firstTable with
  | none => none
  | some tbl =>
    let container := tbl.tbody.getD tbl.asContainer
    match container.firstTr with
    | none => none
    | some first_row =>
      let tds := first_row.tds
      if tds.length < 3 then none
      else
        some { company := strip_markdown (tds.getD 0 "")
               role := strip_markdown (tds.getD 1 "")
               location := strip_markdown (tds.getD 2 "") }

/-- Separator-line test of `parse_markdown_table` (pinger.py line 81):
`re.match(r"^\s*\|[-:\s|]+\|\s*$", line)`.  Compiled form: after
stripping surrounding whitespace the line must start and end with `|`
with at least one character between them, all drawn from `-`, `:`, `|`
and whitespace.  (The classes `[-:\s|]` and `\s` cannot match past the
final `|`, so backtracking adds nothing beyond this shape.) -/
def sep_match (ln : String) : Bool :=
  let t := pyStripChars ln.toList
  t.head? = some '|' && t.getLast? = some '|' && decide (3 ≤ t.length) &&
    ((t.drop 1).dropLast.all fun c => c = '-' || c = ':' || c = '|' || pyIsSpace c)

/-- Candidate test of the header scan (pinger.py line 81, left of the
regex): `sec_lines[i].lstrip().startswith("|")`. -/
def lstripStartsPipe (ln : String) : Bool :=
  (ln.toList.dropWhile pyIsSpace).head? = some '|'

/-- The scan `for i in range(len(sec_lines) - 1)` of `parse_markdown_table`
(pinger.py lines 79-83): first index `i` whose line left-trims to a `|`
start and whose successor matches the separator pattern. -/
def findMdHeader : List String → Option Nat
  | a :: b :: rest =>
    if lstripStartsPipe a && sep_match b then some 0
    else (findMdHeader (b :: rest)).map (· + 1)
  | _ => none

/-- Python `row.strip("|")`: remove every leading and every trailing `|`. -/
def stripPipes (l : List Char) : List Char :=
  ((l.dropWhile (fun c => c = '|')).reverse.dropWhile (fun c => c = '|')).reverse

/-- The `split_cols` helper of `parse_markdown_table` (pinger.py
lines 89-90): `[c.strip() for c in row.strip().strip("|").split("|")]`. -/
def split_cols (row : String) : List String :=
  ((splitOnChar '|' (stripPipes (pyStripChars row.toList))).map String.mk).map pyStrip

/-- Embedding of `parse_markdown_table` (pinger.py lines 77-100). -/
def parse_markdown_table (section_text : String) : Option ListingRow :=
  let sec_lines := pySplitlines section_text
  match findMdHeader sec_lines with
  | none => none
  | some start =>
    if sec_lines.length ≤ start + 2 then none
    else
      let cols := split_cols (sec_lines.getD (start + 2) "")
      if cols.length < 3 then none
      else
        some { company := strip_markdown (cols.getD 0 "")
               role := strip_markdown (cols.getD 1 "")
               location := strip_markdown (cols.getD 2 "") }

/-- Modelled from the spec: the data-row processing as §4.4 words it,
"trim, strip one leading and one trailing `|`, split remaining on `|`,
trim each resulting cell" — removing exactly one pipe from each end,
unlike the source's `strip("|")`.  Used only to compare the spec's words
with `split_cols`. -/
def split_cols_specWords (row : String) : List String :=
  let t := pyStripChars row.toList
  let t1 := match t with
    | '|' :: tl => tl
    | _ => t
  let t2 := match t1.getLast? with
    | some '|' => t1.dropLast
    | _ => t1
  ((splitOnChar '|' t2).map String.mk).map pyStrip

/-- Modelled from the spec: `parse_markdown_table` with the data row
processed per the spec's words (`split_cols_specWords` in place of
`split_cols`); everything else as in the source.  Used only to compare
the spec's claimed row processing with the source's. -/
def parse_markdown_table_specWords (section_text : String) : Option ListingRow :=
  let sec_lines := pySplitlines section_text
  match findMdHeader sec_lines with
  | none => none
  | some start =>
    if sec_lines.length ≤ start + 2 then none
    else
      let cols := split_cols_specWords (sec_lines.getD (start + 2) "")
      if cols.length < 3 then none
      else
        some { company := strip_markdown (cols.getD 0 "")
               role := strip_markdown (cols.getD 1 "")
               location := strip_markdown (cols.getD 2 "") }

/-- Configured tracked section titles (pinger.py lines 13-16). -/
def SECTION_TITLES : List String :=
  ["Data Science, AI & Machine Learning Internship Roles",
   "Software Engineering Internship Roles"]

/-- Per-section parse of `get_latest_internships` (pinger.py line 109):
`parse_html_table(sec_text) or parse_markdown_table(sec_text)` — both
parsers receive the identical section text, and a successful HTML result
(a nonempty dict, hence truthy) short-circuits the markdown attempt. -/
def sectionResult (p : String → HtmlDoc) (sec_text : String) : Option ListingRow :=
  match parse_html_table p sec_text with
  | some r => some r
  | none => parse_markdown_table sec_text

/-- The title loop of `get_latest_internships` (pinger.py lines 106-113):
sections are extracted per title (an extraction failure propagates, ending
the loop), parse failures are skipped, successes are collected in order. -/
def fetchLoop (p : String → HtmlDoc) (md : String) :
    List String → Except Err (List (String × ListingRow))
  | [] => .ok []
  | title :: rest =>
    match get_section_slice md title with
    | .error e => .error e
    | .ok sec_text =>
      match sectionResult p sec_text with
      | some r => (fetchLoop p md rest).map (fun tail => (title, r) :: tail)
      | none => fetchLoop p md rest

/-- Embedding of `get_latest_internships` (pinger.py lines 102-118), with the fetched
document `md` and the configured titles as arguments and BeautifulSoup
abstracted as `p`.  Raises `NoTablesFound` when no title produced a row. -/
def get_latest_internships (p : String → HtmlDoc) (md : String) (titles : List String) :
    Except Err (List (String × ListingRow)) :=
  match fetchLoop p md titles with
  | .error e => .error e
  | .ok all_results =>
    if all_results.isEmpty then .error .noTablesFound else .ok all_results

/-- The successful (title, row) pairs the title loop collects, in
configured order: for each title whose section extraction succeeds, the
pair survives exactly when one of the two parsers yields a row. -/
def okPairs (p : String → HtmlDoc) (md : String) (titles : List String) :
    List (String × ListingRow) :=
  titles.filterMap fun t =>
    match get_section_slice md t with
    | .ok sec => (sectionResult p sec).map fun r => (t, r)
    | .error _ => none

/-- Value of `prev_all.get(section, {})` (pinger.py line 136): either the
stored row dict or the empty dict. -/
inductive RowVal where
  | empty
  | row (r : ListingRow)
deriving DecidableEq, Repr

/-- First-match association lookup, as in a JSON-object dict keyed by
section title. -/
def lookupRow : List (String × ListingRow) → String → Option ListingRow
  | [], _ => none
  | (k, v) :: rest, t => if k = t then some v else lookupRow rest t

/-- Python `prev_all.get(section, {})` (pinger.py line 136). -/
def getRow (prev_all : List (String × ListingRow)) (t : String) : RowVal :=
  match lookupRow prev_all t with
  | some r => .row r
  | none => .empty

/-- The diff-and-persist tail of `main` (pinger.py lines 134-150): for
each (section, latest) pair in order, a notification is sent exactly when
`latest != prev_all.get(section, {})`; the first component collects those
sends, and the second is the snapshot written at the end — the whole
`latest_all` when at least one section changed, nothing otherwise. -/
def main_diff (latest_all prev_all : List (String × ListingRow)) :
    List (String × ListingRow) × Option (List (String × ListingRow)) :=
  let changes := latest_all.filter fun pr => decide (RowVal.row pr.2 ≠ getRow prev_all pr.1)
  (changes, if changes.isEmpty then none else some latest_all)

/-- Outcome of opening and reading the state file (pinger.py lines
128-132): the file may be absent (`FileNotFoundError`), present but
unreadable (any other `OSError`), or readable with contents `s`. -/
inductive FileRead where
  | absent
  | unreadable
  | readOk (s : String)
deriving DecidableEq, Repr

/-- Fatal snapshot-load failure: any read outcome other than a missing
file that does not produce a mapping. -/
inductive LoadErr where
  | stateReadError
deriving DecidableEq, Repr

/-- The snapshot load of `main` (pinger.py lines 128-132): only
`FileNotFoundError` is caught and turned into the empty mapping; a
present-but-unreadable file or a `json.load` failure (the external JSON
parser is abstracted as `jparse`, `none` meaning `JSONDecodeError`)
propagates as a fatal error. -/
def load_snapshot (jparse : String → Option (List (String × ListingRow))) :
    FileRead → Except LoadErr (List (String × ListingRow))
  | .absent => .ok []
  | .unreadable => .error .stateReadError
  | .readOk s =>
    match jparse s with
    | some m => .ok m
    | none => .error .stateReadError

/-- C1: with a prior snapshot mapping title `A` to row `X`, and latest
results mapping `A` to the same `X` and a fresh title `B` (absent from
the prior snapshot) to `Y`, exactly one notification is sent — the one
for `B` — and the snapshot written afterwards holds the latest rows of
both `A` and `B`. -/
theorem main_diff_new_section_single_notification
    (A B : String) (X Y : ListingRow) (hAB : A ≠ B) :
    main_diff [(A, X), (B, Y)] [(A, X)] = ([(B, Y)], some [(A, X), (B, Y)])
    ∧ getRow [(A, X), (B, Y)] A = .row X
    ∧ getRow [(A, X), (B, Y)] B = .row Y := by
  have hA : getRow [(A, X)] A = .row X := by simp [getRow, lookupRow]
  have hB : getRow [(A, X)] B = .empty := by
    simp [getRow, lookupRow, hAB]
  refine ⟨?_, ?_, ?_⟩
  · simp [main_diff, hA, hB]
  · simp [getRow, lookupRow]
  · simp [getRow, lookupRow, hAB]

theorem main_diff_new_section_single_notification_witness :
    main_diff [("Sec A", ⟨"X", "x", "x"⟩), ("Sec B", ⟨"Y", "y", "y"⟩)]
        [("Sec A", ⟨"X", "x", "x"⟩)]
      = ([("Sec B", ⟨"Y", "y", "y"⟩)],
         some [("Sec A", ⟨"X", "x", "x"⟩), ("Sec B", ⟨"Y", "y", "y"⟩)])
    ∧ getRow [("Sec A", ⟨"X", "x", "x"⟩), ("Sec B", ⟨"Y", "y", "y"⟩)] "Sec A"
        = .row ⟨"X", "x", "x"⟩
    ∧ getRow [("Sec A", ⟨"X", "x", "x"⟩), ("Sec B", ⟨"Y", "y", "y"⟩)] "Sec B"
        = .row ⟨"Y", "y", "y"⟩ :=
  main_diff_new_section_single_notification "Sec A" "Sec B"
    ⟨"X", "x", "x"⟩ ⟨"Y", "y", "y"⟩ (by decide)

/-- C2: when every latest result is structurally equal to the prior
snapshot value for its section, no notification is sent and no snapshot
is written. -/
theorem main_diff_no_change_no_write
    (latest_all prev_all : List (String × ListingRow))
    (h : ∀ pr ∈ latest_all, getRow prev_all pr.1 = .row pr.2) :
    main_diff latest_all prev_all = ([], none) := by
  have hf : latest_all.filter
      (fun pr => decide (RowVal.row pr.2 ≠ getRow prev_all pr.1)) = [] := by
    rw [List.filter_eq_nil_iff]
    intro pr hpr
    have := h pr hpr
    simp [this]
  simp only [main_diff]
  rw [hf]
  rfl

theorem main_diff_no_change_no_write_witness :
    main_diff [("T", ⟨"a", "b", "c"⟩)] [("T", ⟨"a", "b", "c"⟩)] = ([], none) :=
  main_diff_no_change_no_write _ _ (by decide)

/-- C3 counterexample: the code strips every leading and trailing `|`
from the data row (`strip("|")`), not exactly one.  On the data row
`||A|B|C||` the source parser yields (A, B, C), while processing the
row per the claim — one pipe removed from each end — yields cells
beginning with an empty cell, hence the row ("", A, B). -/
theorem parse_markdown_table_one_pipe_cex :
    parse_markdown_table "|h|\n|-|\n||A|B|C||" = some ⟨"A", "B", "C"⟩
    ∧ parse_markdown_table_specWords "|h|\n|-|\n||A|B|C||" = some ⟨"", "A", "B"⟩
    ∧ parse_markdown_table "|h|\n|-|\n||A|B|C||"
        ≠ parse_markdown_table_specWords "|h|\n|-|\n||A|B|C||" := by
  decide

/-- C3 amended: when the parser locates a separator at line `i+1` with a
data row at line `i+2`, the data row is trimmed, stripped of ALL leading
and ALL trailing `|` characters (Python `strip("|")`), split on `|` and
each cell trimmed (`split_cols`); the first three cells, normalized,
become company, role, location (fewer than three cells yields no row). -/
theorem parse_markdown_table_data_row
    (section_text : String) (start : Nat)
    (h1 : findMdHeader (pySplitlines section_text) = some start)
    (h2 : start + 2 < (pySplitlines section_text).length) :
    parse_markdown_table section_text =
      (let cols := split_cols ((pySplitlines section_text).getD (start + 2) "")
       if cols.length < 3 then none
       else
         some { company := strip_markdown (cols.getD 0 "")
                role := strip_markdown (cols.getD 1 "")
                location := strip_markdown (cols.getD 2 "") }) := by
  unfold parse_markdown_table
  dsimp only
  rw [h1]
  simp only [if_neg (by omega : ¬ (pySplitlines section_text).length ≤ start + 2)]

theorem parse_markdown_table_data_row_witness :
    findMdHeader (pySplitlines "|h|\n|-|\n| a | b | c |") = some 0
    ∧ 0 + 2 < (pySplitlines "|h|\n|-|\n| a | b | c |").length
    ∧ parse_markdown_table "|h|\n|-|\n| a | b | c |" =
      (let cols := split_cols ((pySplitlines "|h|\n|-|\n| a | b | c |").getD (0 + 2) "")
       if cols.length < 3 then none
       else
         some { company := strip_markdown (cols.getD 0 "")
                role := strip_markdown (cols.getD 1 "")
                location := strip_markdown (cols.getD 2 "") }) :=
  ⟨by decide, by decide,
   parse_markdown_table_data_row "|h|\n|-|\n| a | b | c |" 0 (by decide) (by decide)⟩

/-- C4 counterexample: the separator regex `^\s*\|[-:\s|]+\|\s*$` does
not require a `-`; the candidate pair whose second line is `|:|` —
containing no dash at all — is accepted as a table header, and the
parser succeeds on it. -/
theorem sep_match_no_dash_cex :
    parse_markdown_table "|h|\n|:|\n|a|b|c|" = some ⟨"a", "b", "c"⟩
    ∧ sep_match "|:|" = true
    ∧ "|:|".toList.contains '-' = false := by
  decide

/-- C4 amended: line `i+1` is recognized as a header separator exactly
when, after trimming surrounding whitespace, it starts and ends with `|`
and encloses at least one character, all drawn from `|`, `-`, `:` and
whitespace; at least one `-` is NOT required — in particular `|:|` is
accepted as a header. -/
theorem sep_match_characterization :
    (∀ ln : String,
      sep_match ln = true ↔
        ((pyStripChars ln.toList).head? = some '|'
          ∧ (pyStripChars ln.toList).getLast? = some '|'
          ∧ 3 ≤ (pyStripChars ln.toList).length
          ∧ ∀ c ∈ ((pyStripChars ln.toList).drop 1).dropLast,
              c = '-' ∨ c = ':' ∨ c = '|' ∨ pyIsSpace c = true))
    ∧ sep_match "|:|" = true := by
  constructor
  · intro ln
    simp only [sep_match, Bool.and_eq_true, decide_eq_true_eq, List.all_eq_true,
      Bool.or_eq_true]
    constructor
    · rintro ⟨⟨⟨h1, h2⟩, h3⟩, h4⟩
      refine ⟨h1, h2, h3, ?_⟩
      intro c hc
      have := h4 c hc
      tauto
    · rintro ⟨h1, h2, h3, h4⟩
      refine ⟨⟨⟨h1, h2⟩, h3⟩, ?_⟩
      intro c hc
      have := h4 c hc
      tauto
  · decide

theorem sep_match_characterization_witness :
    sep_match "|:|" = true :=
  sep_match_characterization.2

/-- C9: loading the snapshot yields the empty mapping exactly on a
missing state file; an unreadable file or a JSON parse failure
propagates as a fatal error, and a successful load returns exactly what
the JSON parser produced — no other outcome becomes the empty mapping. -/
theorem load_snapshot_characterization
    (jparse : String → Option (List (String × ListingRow))) :
    load_snapshot jparse .absent = .ok []
    ∧ load_snapshot jparse .unreadable = .error .stateReadError
    ∧ (∀ s, jparse s = none → load_snapshot jparse (.readOk s) = .error .stateReadError)
    ∧ (∀ s m, load_snapshot jparse (.readOk s) = .ok m → jparse s = some m) := by
  refine ⟨rfl, rfl, ?_, ?_⟩
  · intro s hs
    simp [load_snapshot, hs]
  · intro s m hm
    cases hj : jparse s with
    | none =>
      have hload : load_snapshot jparse (.readOk s) = .error .stateReadError := by
        simp [load_snapshot, hj]
      rw [hload] at hm
      exact absurd hm (by simp)
    | some v =>
      have hload : load_snapshot jparse (.readOk s) = .ok v := by
        simp [load_snapshot, hj]
      rw [hload] at hm
      exact congrArg some (Except.ok.inj hm)

theorem load_snapshot_characterization_witness :
    load_snapshot (fun _ => none) .absent = .ok []
    ∧ load_snapshot (fun _ => none) .unreadable = .error .stateReadError
    ∧ load_snapshot (fun _ => none) (.readOk "junk") = .error .stateReadError :=
  ⟨(load_snapshot_characterization (fun _ => none)).1,
   (load_snapshot_characterization (fun _ => none)).2.1,
   (load_snapshot_characterization (fun _ => none)).2.2.1 "junk" rfl⟩

/-- C10: every successful parse, by either parser, is a record with
exactly the fields company, role, location, each produced by the
normalizer (cells beyond the third are ignored by construction); such a
row is never structurally equal to the empty dict, so a title present in
the latest results but absent from the prior snapshot always compares
unequal and always appears among the notified changes. -/
theorem parse_success_normalized_never_empty :
    (∀ (p : String → HtmlDoc) (s : String) (r : ListingRow),
        parse_html_table p s = some r →
        ∃ c0 c1 c2, r = ⟨strip_markdown c0, strip_markdown c1, strip_markdown c2⟩)
    ∧ (∀ (s : String) (r : ListingRow),
        parse_markdown_table s = some r →
        ∃ c0 c1 c2, r = ⟨strip_markdown c0, strip_markdown c1, strip_markdown c2⟩)
    ∧ (∀ r : ListingRow, RowVal.row r ≠ RowVal.empty)
    ∧ (∀ latest_all prev_all (t : String) (r : ListingRow),
        (t, r) ∈ latest_all → getRow prev_all t = .empty →
        (t, r) ∈ (main_diff latest_all prev_all).1) := by
  refine ⟨?_, ?_, ?_, ?_⟩
  · intro p s r h
    unfold parse_html_table at h
    split at h
    · exact absurd h (by simp)
    next tbl =>
      try dsimp only at h
      split at h
      · exact absurd h (by simp)
      next first_row =>
        try dsimp only at h
        split at h
        · exact absurd h (by simp)
        · exact ⟨_, _, _, (Option.some.inj h).symm⟩
  · intro s r h
    unfold parse_markdown_table at h
    try dsimp only at h
    split at h
    · exact absurd h (by simp)
    next start =>
      split at h
      · exact absurd h (by simp)
      · try dsimp only at h
        split at h
        · exact absurd h (by simp)
        · exact ⟨_, _, _, (Option.some.inj h).symm⟩
  · intro r
    simp
  · intro latest_all prev_all t r hmem hempty
    simp only [main_diff]
    refine List.mem_filter.mpr ⟨hmem, ?_⟩
    simp [hempty]

theorem parse_success_normalized_never_empty_witness :
    (∃ c0 c1 c2, (⟨"a", "b", "c"⟩ : ListingRow)
        = ⟨strip_markdown c0, strip_markdown c1, strip_markdown c2⟩)
    ∧ RowVal.row ⟨"a", "b", "c"⟩ ≠ RowVal.empty
    ∧ ("T", (⟨"a", "b", "c"⟩ : ListingRow))
        ∈ (main_diff [("T", ⟨"a", "b", "c"⟩)] []).1 :=
  ⟨parse_success_normalized_never_empty.2.1 "|h|\n|:|\n|a|b|c|" ⟨"a", "b", "c"⟩
      (by decide),
   parse_success_normalized_never_empty.2.2.1 ⟨"a", "b", "c"⟩,
   parse_success_normalized_never_empty.2.2.2 [("T", ⟨"a", "b", "c"⟩)] [] "T"
      ⟨"a", "b", "c"⟩ (by decide) (by decide)⟩

/-- C5 counterexample: the normalizer is not idempotent.  On
`[[x](u)](v)` the single link-substitution pass turns the outer link
into `[x](v)` — a fresh markdown link assembled from the label of the
inner one — which a second normalization reduces further to `x`. -/
theorem strip_markdown_not_idempotent_cex :
    strip_markdown "[[x](u)](v)" = "[x](v)"
    ∧ strip_markdown (strip_markdown "[[x](u)](v)") = "x"
    ∧ strip_markdown (strip_markdown "[[x](u)](v)") ≠ strip_markdown "[[x](u)](v)" := by
  decide

/-- C6: when section extraction matches the heading at line index `s`,
the returned slice is exactly the lines `[s, e)` joined by newlines,
where `e` is `nextHeaderIdx` — the first later index whose line starts
exactly with "## ", or the number of lines when none exists (so the last
level-2 heading yields the whole remainder) — and the slice begins with
the matched heading line itself. -/
theorem get_section_slice_ok_slice (md title : String) (s : Nat)
    (h : (pySplitlines md).findIdx? (headingPred title) = some s) :
    get_section_slice md title =
      .ok (joinLines (((pySplitlines md).take (nextHeaderIdx (pySplitlines md) s)).drop s))
    ∧ (((pySplitlines md).take (nextHeaderIdx (pySplitlines md) s)).drop s).head?
        = (pySplitlines md)[s]?
    ∧ (((pySplitlines md).drop (s + 1)).findIdx? (fun ln => pyStartsWith ln "## ") = none →
        ((pySplitlines md).take (nextHeaderIdx (pySplitlines md) s)).drop s
          = (pySplitlines md).drop s) := by
  have hs : s < (pySplitlines md).length := by
    have := List.findIdx?_eq_some_iff_findIdx_eq.mp h
    exact this.1
  have hlt : s < nextHeaderIdx (pySplitlines md) s := by
    unfold nextHeaderIdx
    cases hfind : ((pySplitlines md).drop (s + 1)).findIdx?
        (fun ln => pyStartsWith ln "## ") with
    | some j => dsimp only; omega
    | none => dsimp only; exact hs
  refine ⟨?_, ?_, ?_⟩
  · unfold get_section_slice
    dsimp only
    rw [h]
  · rw [List.head?_drop, List.getElem?_take, if_pos hlt]
  · intro hn
    unfold nextHeaderIdx
    rw [hn]
    rw [List.take_length]

theorem get_section_slice_ok_slice_witness :
    get_section_slice "x\n## One\na\nb" "one" =
      .ok (joinLines (((pySplitlines "x\n## One\na\nb").take
        (nextHeaderIdx (pySplitlines "x\n## One\na\nb") 1)).drop 1))
    ∧ (((pySplitlines "x\n## One\na\nb").take
        (nextHeaderIdx (pySplitlines "x\n## One\na\nb") 1)).drop 1).head?
        = (pySplitlines "x\n## One\na\nb")[1]?
    ∧ (((pySplitlines "x\n## One\na\nb").drop (1 + 1)).findIdx?
          (fun ln => pyStartsWith ln "## ") = none →
        ((pySplitlines "x\n## One\na\nb").take
          (nextHeaderIdx (pySplitlines "x\n## One\na\nb") 1)).drop 1
          = (pySplitlines "x\n## One\na\nb").drop 1) :=
  get_section_slice_ok_slice "x\n## One\na\nb" "one" 1 (by decide)

theorem fetchLoop_error_of_member (p : String → HtmlDoc) (md : String) :
    ∀ (titles : List String) (t : String), t ∈ titles →
      get_section_slice md t = .error (.sectionNotFound t) →
      ∃ e, fetchLoop p md titles = .error e := by
  intro titles
  induction titles with
  | nil => intro t ht _; cases ht
  | cons a rest ih =>
    intro t ht herr
    rcases List.mem_cons.mp ht with rfl | hmem
    · exact ⟨_, by unfold fetchLoop; rw [herr]⟩
    · cases hs : get_section_slice md a with
      | error e => exact ⟨e, by unfold fetchLoop; rw [hs]⟩
      | ok sec =>
        obtain ⟨e, he⟩ := ih t hmem herr
        cases hr : sectionResult p sec with
        | some r => exact ⟨e, by unfold fetchLoop; rw [hs]; dsimp only; rw [hr, he]; rfl⟩
        | none => exact ⟨e, by unfold fetchLoop; rw [hs]; dsimp only; rw [hr, he]⟩

/-- C7: section extraction fails (with `SectionNotFound` for that title)
exactly when no document line, trimmed, both starts with `##` and
contains the title case-insensitively — in particular a title appearing
only in body text fails — and such a failure is not caught per title in
the orchestrator: it makes the whole `get_latest_internships` run error. -/
theorem get_section_slice_error_iff_and_fatal :
    (∀ md title : String,
      get_section_slice md title = .error (.sectionNotFound title)
        ↔ ∀ ln ∈ pySplitlines md, headingPred title ln = false)
    ∧ (∀ (p : String → HtmlDoc) (md : String) (titles : List String) (t : String),
        t ∈ titles →
        get_section_slice md t = .error (.sectionNotFound t) →
        ∃ e, get_latest_internships p md titles = .error e) := by
  constructor
  · intro md title
    constructor
    · intro herr
      cases hf : (pySplitlines md).findIdx? (headingPred title) with
      | none => exact List.findIdx?_eq_none_iff.mp hf
      | some i =>
        exfalso
        unfold get_section_slice at herr
        dsimp only at herr
        rw [hf] at herr
        exact absurd herr (by simp)
    · intro hall
      unfold get_section_slice
      dsimp only
      rw [List.findIdx?_eq_none_iff.mpr hall]
  · intro p md titles t ht herr
    obtain ⟨e, he⟩ := fetchLoop_error_of_member p md titles t ht herr
    exact ⟨e, by unfold get_latest_internships; rw [he]⟩

theorem get_section_slice_error_iff_and_fatal_witness :
    (get_section_slice "the word alpha only in body text" "alpha"
        = .error (.sectionNotFound "alpha"))
    ∧ (∃ e, get_latest_internships (fun _ => ⟨none⟩)
        "the word alpha only in body text" ["alpha"] = .error e) :=
  ⟨(get_section_slice_error_iff_and_fatal.1
      "the word alpha only in body text" "alpha").mpr (by decide),
   get_section_slice_error_iff_and_fatal.2 (fun _ => ⟨none⟩)
      "the word alpha only in body text" ["alpha"] "alpha" (by decide)
      ((get_section_slice_error_iff_and_fatal.1
        "the word alpha only in body text" "alpha").mpr (by decide))⟩

theorem fetchLoop_ok_of_sections (p : String → HtmlDoc) (md : String) :
    ∀ titles : List String,
      (∀ t ∈ titles, ∃ sec, get_section_slice md t = .ok sec) →
      fetchLoop p md titles = .ok (okPairs p md titles) := by
  intro titles
  induction titles with
  | nil => intro _; rfl
  | cons a rest ih =>
    intro h
    obtain ⟨sec, hsec⟩ := h a (List.mem_cons_self a rest)
    have hrest := ih fun t ht => h t (List.mem_cons_of_mem a ht)
    unfold fetchLoop
    rw [hsec, hrest]
    cases hr : sectionResult p sec with
    | some r => simp [okPairs, List.filterMap_cons, hsec, hr, Except.map]
    | none => simp [okPairs, List.filterMap_cons, hsec, hr]

/-- C8: assuming every configured title's section extraction succeeds,
the orchestrator errors with `NoTablesFound` exactly when every title's
section is unparseable by both parsers; when at least one title parses,
the run succeeds with exactly the surviving (title, row) pairs, the
unparseable titles having been skipped.  The per-section attempt tries
the HTML parser first and, when it yields nothing, runs the markdown
parser on the identical section text. -/
theorem get_latest_internships_no_tables_iff
    (p : String → HtmlDoc) (md : String) (titles : List String)
    (h : ∀ t ∈ titles, ∃ sec, get_section_slice md t = .ok sec) :
    (get_latest_internships p md titles = .error .noTablesFound ↔
      ∀ t ∈ titles, ∀ sec, get_section_slice md t = .ok sec →
        sectionResult p sec = none)
    ∧ (okPairs p md titles ≠ [] →
        get_latest_internships p md titles = .ok (okPairs p md titles))
    ∧ (∀ sec_text, parse_html_table p sec_text = none →
        sectionResult p sec_text = parse_markdown_table sec_text) := by
  have hfl := fetchLoop_ok_of_sections p md titles h
  have hmain : get_latest_internships p md titles =
      (if (okPairs p md titles).isEmpty then .error .noTablesFound
       else .ok (okPairs p md titles)) := by
    unfold get_latest_internships
    rw [hfl]
  refine ⟨?_, ?_, ?_⟩
  · constructor
    · intro herr t ht sec hsec
      have hempty : (okPairs p md titles).isEmpty = true := by
        by_contra hne
        rw [hmain, if_neg (by simpa using hne)] at herr
        exact absurd herr (by simp)
      have hnil : okPairs p md titles = [] := by
        simpa [List.isEmpty_iff] using hempty
      have := List.filterMap_eq_nil_iff.mp hnil t ht
      rw [hsec] at this
      dsimp only at this
      exact Option.map_eq_none.mp this
    · intro hall
      have hnil : okPairs p md titles = [] := by
        apply List.filterMap_eq_nil_iff.mpr
        intro t ht
        obtain ⟨sec, hsec⟩ := h t ht
        rw [hsec]
        dsimp only
        rw [hall t ht sec hsec]
        rfl
      rw [hmain, hnil]
      rfl
  · intro hne
    rw [hmain, if_neg (by simpa using hne)]
  · intro sec_text hnone
    unfold sectionResult
    rw [hnone]

theorem get_latest_internships_no_tables_iff_witness :
    get_latest_internships (fun _ => ⟨none⟩) "## A\n|h|\n|-|\n|x|y|z|\n## B\nno"
        ["A", "B"]
      = .ok (okPairs (fun _ => ⟨none⟩) "## A\n|h|\n|-|\n|x|y|z|\n## B\nno"
        ["A", "B"]) :=
  (get_latest_internships_no_tables_iff (fun _ => ⟨none⟩)
      "## A\n|h|\n|-|\n|x|y|z|\n## B\nno" ["A", "B"]
      (by
        intro t ht
        rcases List.mem_cons.mp ht with rfl | ht2
        · exact ⟨"## A\n|h|\n|-|\n|x|y|z|", by decide⟩
        · rcases List.mem_cons.mp ht2 with rfl | ht3
          · exact ⟨"## B\nno", by decide⟩
          · cases ht3)).2.1 (by decide)

theorem length_dropWhile_le (p : Char → Bool) (l : List Char) :
    (l.dropWhile p).length ≤ l.length := by
  induction l with
  | nil => simp
  | cons c cs ih =>
    by_cases h : p c
    · simpa [List.dropWhile, h] using Nat.le_succ_of_le ih
    · simp [List.dropWhile, h]

theorem pyWordsF_fuel :
    ∀ (n : Nat) (l : List Char), l.length ≤ n → ∀ f, l.length ≤ f →
      pyWordsF f l = pyWordsF l.length l := by
  intro n
  induction n with
  | zero =>
    intro l hl f _
    have hnil : l = [] := List.length_eq_zero.mp (Nat.le_zero.mp hl)
    subst hnil
    cases f <;> rfl
  | succ n ih =>
    intro l hl f hf
    cases l with
    | nil => cases f <;> rfl
    | cons c cs =>
      cases f with
      | zero => simp at hf
      | succ fk =>
        by_cases hc : pyIsSpace c
        · have h1 : pyWordsF fk cs = pyWordsF cs.length cs :=
            ih cs (by simpa using hl) fk (by simpa using hf)
          simp only [pyWordsF, List.length_cons, hc, if_pos]
          rw [h1]
        · have hd : (cs.dropWhile (fun x => !pyIsSpace x)).length ≤ cs.length :=
            length_dropWhile_le _ _
          have h1 : pyWordsF fk (cs.dropWhile (fun x => !pyIsSpace x))
              = pyWordsF (cs.dropWhile (fun x => !pyIsSpace x)).length
                  (cs.dropWhile (fun x => !pyIsSpace x)) :=
            ih _ (by simp at hl; omega) fk (by simp at hf; omega)
          have h2 : pyWordsF cs.length (cs.dropWhile (fun x => !pyIsSpace x))
              = pyWordsF (cs.dropWhile (fun x => !pyIsSpace x)).length
                  (cs.dropWhile (fun x => !pyIsSpace x)) :=
            ih _ (by simp at hl; omega) cs.length hd
          simp only [pyWordsF, List.length_cons, hc, if_neg, Bool.false_eq_true,
            not_false_eq_true]
          rw [h1, h2]

theorem pyWords_nil : pyWords [] = [] := rfl

theorem pyWords_cons_space {c : Char} {cs : List Char} (hc : pyIsSpace c = true) :
    pyWords (c :: cs) = pyWords cs := by
  show pyWordsF (cs.length + 1) (c :: cs) = pyWords cs
  simp only [pyWordsF, hc, if_pos]
  rfl

theorem pyWords_cons_nonspace {c : Char} {cs : List Char} (hc : pyIsSpace c = false) :
    pyWords (c :: cs) = (c :: cs.takeWhile (fun x => !pyIsSpace x)) ::
      pyWords (cs.dropWhile (fun x => !pyIsSpace x)) := by
  show pyWordsF (cs.length + 1) (c :: cs) = _
  simp only [pyWordsF, hc, Bool.false_eq_true, if_neg, not_false_eq_true]
  congr 1
  exact pyWordsF_fuel cs.length _ (length_dropWhile_le _ _) cs.length
    (length_dropWhile_le _ _)

theorem pyWords_words_good :
    ∀ (n : Nat) (l : List Char), l.length ≤ n →
      ∀ w ∈ pyWords l, w ≠ [] ∧ ∀ c ∈ w, pyIsSpace c = false := by
  intro n
  induction n with
  | zero =>
    intro l hl w hw
    have hnil : l = [] := List.length_eq_zero.mp (Nat.le_zero.mp hl)
    subst hnil
    rw [pyWords_nil] at hw
    cases hw
  | succ n ih =>
    intro l hl w hw
    cases l with
    | nil => rw [pyWords_nil] at hw; cases hw
    | cons c cs =>
      by_cases hc : pyIsSpace c
      · rw [pyWords_cons_space hc] at hw
        exact ih cs (by simpa using hl) w hw
      · rw [pyWords_cons_nonspace (by simpa using hc)] at hw
        rcases List.mem_cons.mp hw with rfl | hw2
        · refine ⟨by simp, ?_⟩
          intro x hx
          rcases List.mem_cons.mp hx with rfl | hx2
          · simpa using hc
          · simpa using List.mem_takeWhile_imp hx2
        · have hd : (cs.dropWhile (fun x => !pyIsSpace x)).length ≤ n := by
            have := length_dropWhile_le (fun x => !pyIsSpace x) cs
            simp at hl
            omega
          exact ih _ hd w hw2

theorem takeWhile_nonspace_append (w rest : List Char)
    (hw : ∀ c ∈ w, pyIsSpace c = false) :
    (w ++ ' ' :: rest).takeWhile (fun x => !pyIsSpace x) = w := by
  rw [List.takeWhile_append_of_pos (by intro a ha; simp [hw a ha])]
  have hsp : (!pyIsSpace ' ') = false := by decide
  simp [List.takeWhile, hsp]

theorem dropWhile_nonspace_append (w rest : List Char)
    (hw : ∀ c ∈ w, pyIsSpace c = false) :
    (w ++ ' ' :: rest).dropWhile (fun x => !pyIsSpace x) = ' ' :: rest := by
  rw [List.dropWhile_append_of_pos (by intro a ha; simp [hw a ha])]
  have hsp : (!pyIsSpace ' ') = false := by decide
  simp [List.dropWhile, hsp]

theorem pyWords_word_append (w rest : List Char) (hne : w ≠ [])
    (hw : ∀ c ∈ w, pyIsSpace c = false) :
    pyWords (w ++ ' ' :: rest) = w :: pyWords rest := by
  cases w with
  | nil => exact absurd rfl hne
  | cons c w2 =>
    have hc : pyIsSpace c = false := hw c (List.mem_cons_self c w2)
    rw [List.cons_append, pyWords_cons_nonspace hc]
    rw [takeWhile_nonspace_append w2 rest fun x hx => hw x (List.mem_cons_of_mem c hx)]
    rw [dropWhile_nonspace_append w2 rest fun x hx => hw x (List.mem_cons_of_mem c hx)]
    rw [pyWords_cons_space (by decide)]

theorem pyWords_single_word (w : List Char) (hne : w ≠ [])
    (hw : ∀ c ∈ w, pyIsSpace c = false) :
    pyWords w = [w] := by
  cases w with
  | nil => exact absurd rfl hne
  | cons c w2 =>
    rw [pyWords_cons_nonspace (hw c (List.mem_cons_self c w2))]
    rw [List.takeWhile_eq_self_iff.mpr
      fun x hx => by simp [hw x (List.mem_cons_of_mem c hx)]]
    rw [List.dropWhile_eq_nil_iff.mpr
      fun x hx => by simp [hw x (List.mem_cons_of_mem c hx)]]
    rw [pyWords_nil]

theorem pyWords_joinWords :
    ∀ ws : List (List Char),
      (∀ w ∈ ws, w ≠ [] ∧ ∀ c ∈ w, pyIsSpace c = false) →
      pyWords (joinWords ws) = ws := by
  intro ws
  induction ws with
  | nil => intro _; rfl
  | cons w vs ih =>
    intro h
    cases vs with
    | nil =>
      exact pyWords_single_word w (h w (List.mem_cons_self w [])).1
        (h w (List.mem_cons_self w [])).2
    | cons v vs2 =>
      rw [show joinWords (w :: v :: vs2) = w ++ ' ' :: joinWords (v :: vs2) from rfl]
      rw [pyWords_word_append w _ (h w (List.mem_cons_self w _)).1
        (h w (List.mem_cons_self w _)).2]
      rw [ih fun u hu => h u (List.mem_cons_of_mem w hu)]

theorem keep_nonspace (c : Char) (h : (isWordChar c || c = '[') = true) :
    pyIsSpace c = false := by
  by_cases hs : pyIsSpace c = true
  · exfalso
    have hc : c = ' ' ∨ c = '\t' ∨ c = '\n' ∨ c = '\x0b' ∨ c = '\x0c' ∨ c = '\r' := by
      simpa [pyIsSpace, or_assoc] using hs
    rcases hc with rfl | rfl | rfl | rfl | rfl | rfl <;> exact absurd h (by decide)
  · simpa using hs

theorem collapseWs_idem (l : List Char) : collapseWs (collapseWs l) = collapseWs l := by
  unfold collapseWs
  rw [pyWords_joinWords (pyWords l)
    fun w hw => pyWords_words_good l.length l le_rfl w hw]

theorem dropWhile_first_not (p : Char → Bool) :
    ∀ (l : List Char) {c : Char} {cs : List Char},
      l.dropWhile p = c :: cs → p c = false := by
  intro l
  induction l with
  | nil => intro c cs h; simp at h
  | cons a as ih =>
    intro c cs h
    by_cases hp : p a
    · rw [List.dropWhile_cons_of_pos hp] at h
      exact ih h
    · rw [List.dropWhile_cons_of_neg hp] at h
      injection h with h1 h2
      subst h1
      simpa using hp

theorem stripLeadingDecoration_collapse (l : List Char) :
    stripLeadingDecoration (collapseWs (stripLeadingDecoration l))
      = collapseWs (stripLeadingDecoration l) := by
  cases hU : stripLeadingDecoration l with
  | nil => simp [collapseWs, pyWords_nil, joinWords, stripLeadingDecoration]
  | cons c cs =>
    have hkeep : (isWordChar c || c = '[') = true := by
      have hnot := dropWhile_first_not (fun c => !(isWordChar c || c = '[')) l
        (show l.dropWhile (fun c => !(isWordChar c || c = '[')) = c :: cs from hU)
      by_cases hb : (isWordChar c || c = '[') = true
      · exact hb
      · exfalso
        have hb2 : (isWordChar c || decide (c = '[')) = false := by
          simpa using hb
        simp only [hb2] at hnot
        simp at hnot
    have hcns : pyIsSpace c = false := keep_nonspace c hkeep
    rw [collapseWs, pyWords_cons_nonspace hcns]
    have hhead : ∃ tl, joinWords ((c :: cs.takeWhile (fun x => !pyIsSpace x)) ::
        pyWords (cs.dropWhile (fun x => !pyIsSpace x))) = c :: tl := by
      cases pyWords (cs.dropWhile (fun x => !pyIsSpace x)) with
      | nil => exact ⟨_, rfl⟩
      | cons v vs => exact ⟨_, rfl⟩
    obtain ⟨tl, htl⟩ := hhead
    rw [htl]
    show (c :: tl).dropWhile (fun c => !(isWordChar c || c = '[')) = c :: tl
    rw [List.dropWhile_cons_of_neg (by simp [hkeep])]

/-- C5 amended: the normalizer is idempotent on every string whose
normalized form is free of markdown links — that is, whenever the
link-substitution pass leaves `strip_markdown s` unchanged (the
counterexample shows a leftover link is the one way a second pass can
differ), `strip_markdown (strip_markdown s) = strip_markdown s`. -/
theorem strip_markdown_idempotent_of_link_free (s : String)
    (h : replaceLinks (strip_markdown s).toList = (strip_markdown s).toList) :
    strip_markdown (strip_markdown s) = strip_markdown s := by
  have hdata : (strip_markdown s).toList
      = collapseWs (stripLeadingDecoration (replaceLinks s.toList)) := rfl
  show String.mk (collapseWs (stripLeadingDecoration
      (replaceLinks (strip_markdown s).toList))) = strip_markdown s
  rw [h, hdata, stripLeadingDecoration_collapse, collapseWs_idem]
  rfl

theorem strip_markdown_idempotent_of_link_free_witness :
    strip_markdown (strip_markdown "- [Acme](url)   SWE  intern")
      = strip_markdown "- [Acme](url)   SWE  intern" :=
  strip_markdown_idempotent_of_link_free "- [Acme](url)   SWE  intern" (by decide)

end Pinger
